import Mathlib

/-!
Verification of the crawler core of `backend/src/crawler` (crawler.py, models.py).

Python strings are embedded as `List Char`; Python `int` as `Int` where sign
matters and `Nat` for lengths/indices.  Fallible operations (network fetch,
database lookup, model validation, PDF extraction) are embedded with
`Except`/`Option`; an exception propagating out of a Python frame is an
explicit error value carried next to the mutated state.
-/

set_option maxRecDepth 4000

/-- Python `str`, embedded as its list of characters. -/
abbrev Str := List Char

/-- Coerce a Lean string literal to the embedding. -/
def str (s : String) : Str := s.data

/-- Concatenation of a list of strings (Python `"".join`). -/
def joinAll : List Str → Str
  | [] => []
  | u :: us => u ++ joinAll us

/-- Python `sep.join(parts)` for our purposes: intercalate. -/
def pyJoin (sep : Str) : List Str → Str
  | [] => []
  | [u] => u
  | u :: us => u ++ sep ++ pyJoin sep us

/-- Python `startswith` on embedded strings. -/
def strStarts : Str → Str → Bool
  | [], _ => true
  | _ :: _, [] => false
  | a :: as, b :: bs => if a = b then strStarts as bs else false

/-- Python `endswith` on embedded strings. -/
def strEnds (suf s : Str) : Bool := strStarts suf.reverse s.reverse

/-- Worker for Python `str.split(sep)` with non-empty `sep`: left-to-right scan.
`skip` counts separator characters still to be consumed after a match
(structural recursion on the subject string). -/
def splitGo (sep : Str) : Str → Nat → List Str
  | [], _ => [[]]
  | _ :: rest, skip + 1 => splitGo sep rest skip
  | c :: rest, 0 =>
    if strStarts sep (c :: rest) then
      [] :: splitGo sep rest (sep.length - 1)
    else
      match splitGo sep rest 0 with
      | [] => [[c]]
      | u :: us => (c :: u) :: us

/-- Python `s.split(sep)` for a non-empty separator (`content.split("\f")`,
`content.split("\n\n")`, `url.split('/')`, ...).  Python raises on an empty
separator; that case is unused and modelled as the identity split. -/
def pySplit (sep s : Str) : List Str :=
  if sep = [] then [s] else splitGo sep s 0

/-- The PDF accumulation loop of `_split_document` (crawler.py lines 115-127):
accumulate split pages into `current_chunk`, closing a chunk when adding the
next page would overflow `max_size` and the current chunk is non-empty. -/
def pdfLoop (maxSize : Nat) : List Str → Str → List Str
  | [], cur => if cur ≠ [] then [cur] else []
  | p :: ps, cur =>
    if cur.length + p.length > maxSize ∧ cur ≠ [] then
      cur :: pdfLoop maxSize ps p
    else
      pdfLoop maxSize ps (cur ++ p)

/-- The two-newline paragraph separator used by the HTML strategy. -/
def nl2 : Str := ['\n', '\n']

/-- The HTML accumulation loop of `_split_document` (crawler.py lines 129-143):
like the PDF loop but on blank-line separated paragraphs, re-joined with a
blank line inside a chunk, with a `+ 2` allowance for the separator. -/
def htmlLoop (maxSize : Nat) : List Str → Str → List Str
  | [], cur => if cur ≠ [] then [cur] else []
  | p :: ps, cur =>
    if cur.length + p.length + 2 > maxSize ∧ cur ≠ [] then
      cur :: htmlLoop maxSize ps p
    else
      htmlLoop maxSize ps ((if cur ≠ [] then cur ++ nl2 else cur) ++ p)

/-- Worker for the fixed-width fallback slicing, fuelled by the string length
(crawler.py lines 145-147: `for i in range(0, len(content), max_size)`). -/
def chunksOfGo (m : Nat) : Nat → Str → List Str
  | _, [] => []
  | 0, _ => []
  | fuel + 1, s => s.take m :: chunksOfGo m fuel (s.drop m)

/-- Fixed-width slicing of `content` into `m`-character windows.  Python's
`range` with step 0 raises (the exception is caught upstream and yields no
documents); that unused case is modelled as the empty list. -/
def chunksOf (m : Nat) (s : Str) : List Str :=
  if m = 0 then [] else chunksOfGo m s.length s

-- ### Basic lemmas about the split/join embedding

theorem strStarts_iff (pre s : Str) :
    strStarts pre s = true ↔ ∃ t, s = pre ++ t := by
  induction pre generalizing s with
  | nil => simp [strStarts]
  | cons a as ih =>
    cases s with
    | nil => simp [strStarts]
    | cons b bs =>
      simp only [strStarts]
      by_cases hab : a = b
      · subst hab
        rw [if_pos rfl]
        simp only [List.cons_append, List.cons.injEq, true_and]
        exact ih bs
      · rw [if_neg hab]
        simp only [Bool.false_eq_true, false_iff, not_exists]
        intro t ht
        simp only [List.cons_append, List.cons.injEq] at ht
        exact hab ht.1.symm

theorem splitGo_ne_nil (sep s : Str) (skip : Nat) : splitGo sep s skip ≠ [] := by
  induction s generalizing skip with
  | nil => simp [splitGo]
  | cons c rest ih =>
    cases skip with
    | succ k => simpa [splitGo] using ih k
    | zero =>
      simp only [splitGo]
      by_cases h : strStarts sep (c :: rest) = true
      · simp [h]
      · simp only [h]
        cases hrec : splitGo sep rest 0 with
        | nil => simp
        | cons u us => simp

theorem splitGo_skip (sep : Str) (s : Str) (skip : Nat) :
    splitGo sep s skip = splitGo sep (s.drop skip) 0 := by
  induction s generalizing skip with
  | nil => cases skip <;> simp [splitGo]
  | cons c rest ih =>
    cases skip with
    | zero => simp
    | succ k => simpa [splitGo] using ih k

theorem pyJoin_cons_cons (sep u v : Str) (us : List Str) :
    pyJoin sep (u :: v :: us) = u ++ sep ++ pyJoin sep (v :: us) := rfl

/-- Fuelled worker for `pyJoin_pySplit`. -/
theorem pyJoin_splitGo (sep : Str) (hsep : sep ≠ []) :
    ∀ n (s : Str), s.length ≤ n → pyJoin sep (splitGo sep s 0) = s := by
  intro n
  induction n with
  | zero =>
    intro s hs
    have : s = [] := by
      cases s with
      | nil => rfl
      | cons c cs => simp at hs
    subst this
    simp [splitGo, pyJoin]
  | succ n ih =>
    intro s hs
    cases s with
    | nil => simp [splitGo, pyJoin]
    | cons c rest =>
      simp only [splitGo]
      by_cases h : strStarts sep (c :: rest) = true
      · obtain ⟨t, ht⟩ := (strStarts_iff sep (c :: rest)).1 h
        have hs1 : 1 ≤ sep.length := by
          cases sep with
          | nil => exact absurd rfl hsep
          | cons _ _ => simp
        have hdrop : rest.drop (sep.length - 1) = t := by
          have hd : (c :: rest).drop sep.length = t := by
            rw [ht]; simp
          cases hsepc : sep with
          | nil => exact absurd hsepc hsep
          | cons a as =>
            rw [hsepc] at hd
            simpa using hd
        have hlen : (c :: rest).length = sep.length + t.length := by
          rw [ht]; simp
        have hle : t.length ≤ n := by
          simp only [List.length_cons] at hlen hs
          omega
        have hrec := ih t hle
        rw [if_pos h, splitGo_skip, hdrop]
        cases hsplit : splitGo sep t 0 with
        | nil => exact absurd hsplit (splitGo_ne_nil sep t 0)
        | cons u us =>
          rw [hsplit] at hrec
          rw [ht, pyJoin_cons_cons, hrec]
          simp
      · simp only [h, Bool.false_eq_true, if_false]
        have hle : rest.length ≤ n := by
          simp only [List.length_cons] at hs
          omega
        have hrec := ih rest hle
        cases hsplit : splitGo sep rest 0 with
        | nil => exact absurd hsplit (splitGo_ne_nil sep rest 0)
        | cons u us =>
          rw [hsplit] at hrec
          cases us with
          | nil => simp only [pyJoin] at hrec ⊢; rw [hrec]
          | cons v vs =>
            rw [pyJoin_cons_cons] at hrec ⊢
            simpa [List.append_assoc] using congrArg (List.cons c) hrec

/-- Re-joining Python's split with the separator gives back the string. -/
theorem pyJoin_pySplit (sep : Str) (hsep : sep ≠ []) (s : Str) :
    pyJoin sep (pySplit sep s) = s := by
  rw [pySplit, if_neg hsep]
  exact pyJoin_splitGo sep hsep s.length s le_rfl

theorem pySplit_ne_nil (sep s : Str) : pySplit sep s ≠ [] := by
  rw [pySplit]
  by_cases h : sep = []
  · simp [h]
  · rw [if_neg h]; exact splitGo_ne_nil sep s 0

-- ### Size invariants of the three splitting strategies (C1)

theorem pdfLoop_sizes (maxSize : Nat) (units : List Str) :
    ∀ ps cur, (∀ u ∈ ps, u ∈ units) →
      (cur = [] ∨ cur.length ≤ maxSize ∨ cur ∈ units) →
      ∀ c ∈ pdfLoop maxSize ps cur, c.length ≤ maxSize ∨ c ∈ units := by
  intro ps
  induction ps with
  | nil =>
    intro cur _ hcur c hc
    simp only [pdfLoop] at hc
    by_cases h : cur = []
    · rw [if_neg (by simp [h])] at hc
      simp at hc
    · rw [if_pos (by simpa using h)] at hc
      rcases List.mem_singleton.1 hc with rfl
      rcases hcur with h' | h' | h'
      · exact absurd h' h
      · exact Or.inl h'
      · exact Or.inr h'
  | cons p ps ih =>
    intro cur hps hcur c hc
    have hp : p ∈ units := hps p (by simp)
    have hps' : ∀ u ∈ ps, u ∈ units := fun u hu => hps u (by simp [hu])
    simp only [pdfLoop] at hc
    by_cases hcond : cur.length + p.length > maxSize ∧ cur ≠ []
    · rw [if_pos hcond] at hc
      rcases List.mem_cons.1 hc with rfl | hc'
      · rcases hcur with h' | h' | h'
        · exact absurd h' hcond.2
        · exact Or.inl h'
        · exact Or.inr h'
      · exact ih p hps' (Or.inr (Or.inr hp)) c hc'
    · rw [if_neg hcond] at hc
      refine ih (cur ++ p) hps' ?_ c hc
      by_cases hnil : cur = []
      · subst hnil
        exact Or.inr (Or.inr (by simpa using hp))
      · right; left
        have : ¬ cur.length + p.length > maxSize := by
          intro hgt; exact hcond ⟨hgt, hnil⟩
        simpa using Nat.le_of_not_lt this

theorem htmlLoop_sizes (maxSize : Nat) (units : List Str) :
    ∀ ps cur, (∀ u ∈ ps, u ∈ units) →
      (cur = [] ∨ cur.length ≤ maxSize ∨ cur ∈ units) →
      ∀ c ∈ htmlLoop maxSize ps cur, c.length ≤ maxSize ∨ c ∈ units := by
  intro ps
  induction ps with
  | nil =>
    intro cur _ hcur c hc
    simp only [htmlLoop] at hc
    by_cases h : cur = []
    · rw [if_neg (by simp [h])] at hc
      simp at hc
    · rw [if_pos (by simpa using h)] at hc
      rcases List.mem_singleton.1 hc with rfl
      rcases hcur with h' | h' | h'
      · exact absurd h' h
      · exact Or.inl h'
      · exact Or.inr h'
  | cons p ps ih =>
    intro cur hps hcur c hc
    have hp : p ∈ units := hps p (by simp)
    have hps' : ∀ u ∈ ps, u ∈ units := fun u hu => hps u (by simp [hu])
    simp only [htmlLoop] at hc
    by_cases hcond : cur.length + p.length + 2 > maxSize ∧ cur ≠ []
    · rw [if_pos hcond] at hc
      rcases List.mem_cons.1 hc with rfl | hc'
      · rcases hcur with h' | h' | h'
        · exact absurd h' hcond.2
        · exact Or.inl h'
        · exact Or.inr h'
      · exact ih p hps' (Or.inr (Or.inr hp)) c hc'
    · rw [if_neg hcond] at hc
      by_cases hnil : cur = []
      · refine ih _ hps' ?_ c hc
        subst hnil
        exact Or.inr (Or.inr (by simpa using hp))
      · refine ih _ hps' ?_ c hc
        right; left
        have hle : ¬ cur.length + p.length + 2 > maxSize := by
          intro hgt; exact hcond ⟨hgt, hnil⟩
        rw [if_pos (by simpa using hnil)]
        have : (cur ++ nl2 ++ p).length = cur.length + p.length + 2 := by
          simp [nl2]; omega
        omega

theorem chunksOfGo_sizes (m : Nat) :
    ∀ fuel s c, c ∈ chunksOfGo m fuel s → c.length ≤ m := by
  intro fuel
  induction fuel with
  | zero =>
    intro s c hc
    cases s <;> simp [chunksOfGo] at hc
  | succ fuel ih =>
    intro s c hc
    cases s with
    | nil => simp [chunksOfGo] at hc
    | cons a as =>
      simp only [chunksOfGo] at hc
      rcases List.mem_cons.1 hc with rfl | hc'
      · simp [List.length_take_le]
      · exact ih _ c hc'

-- ### Exact reassembly lemmas (C9)

theorem pdfLoop_join (maxSize : Nat) :
    ∀ ps cur, joinAll (pdfLoop maxSize ps cur) = cur ++ joinAll ps := by
  intro ps
  induction ps with
  | nil =>
    intro cur
    by_cases h : cur = []
    · simp [pdfLoop, h, joinAll]
    · rw [pdfLoop, if_pos (by simpa using h)]
      simp [joinAll]
  | cons p ps ih =>
    intro cur
    simp only [pdfLoop]
    by_cases hcond : cur.length + p.length > maxSize ∧ cur ≠ []
    · rw [if_pos hcond]
      simp [joinAll, ih p]
    · rw [if_neg hcond]
      simp [ih (cur ++ p), joinAll]

theorem chunksOfGo_join (m : Nat) (hm : 0 < m) :
    ∀ fuel s, s.length ≤ fuel → joinAll (chunksOfGo m fuel s) = s := by
  intro fuel
  induction fuel with
  | zero =>
    intro s hs
    cases s with
    | nil => simp [chunksOfGo, joinAll]
    | cons a as => simp at hs
  | succ fuel ih =>
    intro s hs
    cases s with
    | nil => simp [chunksOfGo, joinAll]
    | cons a as =>
      simp only [chunksOfGo, joinAll]
      rw [ih _ (by simp at hs ⊢; omega)]
      exact List.take_append_drop m (a :: as)

theorem chunksOf_join (m : Nat) (hm : 0 < m) (s : Str) :
    joinAll (chunksOf m s) = s := by
  rw [chunksOf, if_neg (by omega)]
  exact chunksOfGo_join m hm s.length s le_rfl

theorem chunksOf_sizes (m : Nat) (s : Str) :
    ∀ c ∈ chunksOf m s, c.length ≤ m := by
  intro c hc
  rw [chunksOf] at hc
  by_cases h : m = 0
  · simp [h] at hc
  · rw [if_neg h] at hc
    exact chunksOfGo_sizes m s.length s c hc

/-- `InsertSeps sep a b` : `b` is `a` with extra copies of the separator
string `sep` inserted at some positions.  This is the formal reading of the
spec's "reproduces it up to the chosen separator characters". -/
inductive InsertSeps (sep : Str) : Str → Str → Prop
  | nil : InsertSeps sep [] []
  | cons (c : Char) {a b : Str} : InsertSeps sep a b → InsertSeps sep (c :: a) (c :: b)
  | ins {a b : Str} : InsertSeps sep a b → InsertSeps sep a (sep ++ b)

theorem InsertSeps.refl (sep : Str) : ∀ a : Str, InsertSeps sep a a := by
  intro a
  induction a with
  | nil => exact InsertSeps.nil
  | cons c cs ih => exact InsertSeps.cons c ih

theorem InsertSeps.prepend (sep : Str) (x : Str) {a b : Str}
    (h : InsertSeps sep a b) : InsertSeps sep (x ++ a) (x ++ b) := by
  induction x with
  | nil => simpa using h
  | cons c cs ih => exact InsertSeps.cons c ih

/-- Core reassembly invariant of the HTML accumulation loop: joining the
produced chunks with the blank-line separator reproduces the joined input
(current chunk followed by the pending paragraphs) up to dropped separators. -/
theorem htmlLoop_reassemble (maxSize : Nat) :
    ∀ ps cur, InsertSeps nl2 (pyJoin nl2 (htmlLoop maxSize ps cur))
      (pyJoin nl2 (cur :: ps)) := by
  intro ps
  induction ps with
  | nil =>
    intro cur
    by_cases h : cur = []
    · subst h
      rw [htmlLoop, if_neg (by simp)]
      exact InsertSeps.refl nl2 _
    · rw [htmlLoop, if_pos (by simpa using h)]
      exact InsertSeps.refl nl2 _
  | cons p ps ih =>
    intro cur
    simp only [htmlLoop]
    by_cases hcond : cur.length + p.length + 2 > maxSize ∧ cur ≠ []
    · rw [if_pos hcond, pyJoin_cons_cons]
      cases hrec : htmlLoop maxSize ps p with
      | nil =>
        have h0 := ih p
        rw [hrec] at h0
        simp only [pyJoin] at h0 ⊢
        have h1 : InsertSeps nl2 ([] : Str) (nl2 ++ pyJoin nl2 (p :: ps)) :=
          InsertSeps.ins h0
        have h2 := InsertSeps.prepend nl2 cur h1
        simpa [List.append_assoc] using h2
      | cons u us =>
        have h0 := ih p
        rw [hrec] at h0
        rw [pyJoin_cons_cons]
        have h2 := InsertSeps.prepend nl2 (cur ++ nl2) h0
        simpa [List.append_assoc] using h2
    · rw [if_neg hcond]
      by_cases hnil : cur = []
      · subst hnil
        rw [if_neg (by simp)]
        have h0 := ih p
        have h1 : InsertSeps nl2 (pyJoin nl2 (htmlLoop maxSize ps ([] ++ p)))
            (nl2 ++ pyJoin nl2 (p :: ps)) := by
          simpa using InsertSeps.ins h0
        have : pyJoin nl2 (([] : Str) :: p :: ps) = nl2 ++ pyJoin nl2 (p :: ps) := by
          rw [pyJoin_cons_cons]; simp
        rw [this]
        exact h1
      · rw [if_pos (by simpa using hnil)]
        have h0 := ih (cur ++ nl2 ++ p)
        have heq : pyJoin nl2 ((cur ++ nl2 ++ p) :: ps) = pyJoin nl2 (cur :: p :: ps) := by
          cases ps with
          | nil => simp [pyJoin]
          | cons q qs =>
            rw [pyJoin_cons_cons, pyJoin_cons_cons, pyJoin_cons_cons]
            simp [List.append_assoc]
        rw [heq] at h0
        exact h0

-- ### Data model (crawler/models.py) and `_split_document` (crawler.py 95-164)

/-- `CrawlTarget` (models.py lines 5-12).  `depth : int` carries no range
constraint in the pydantic model, so negative depths are representable.
`max_document_size : Optional[int]`; only the claims' non-negative values are
modelled. -/
structure CrawlTarget where
  url : Str
  mime_filters : List Str
  depth : Int
  name : Option Str
  update_existing : Bool
  max_document_size : Option Nat
deriving DecidableEq

/-- `Document` (models.py lines 14-22).  `downloaded_at` (wall-clock
`datetime.now()`) is omitted: no claim mentions it.  pydantic rejects a `None`
title for the declared `title: str`; that failure path is modelled at the
construction sites. -/
structure Doc where
  doc_id : Str
  url : Str
  title : Str
  content : Str
  source_type : Str
  lang : Str
deriving DecidableEq

/-- SHA-256 hex digest (`hashlib.sha256(x).hexdigest()`), modelled as an
injective tagging function: the claims rely only on the digest being
deterministic and collision-free. -/
def sha256Hex (s : Str) : Str := str "sha256:" ++ s

/-- Decimal rendering of a natural number (Python string formatting). -/
def natStr (n : Nat) : Str := (toString n).data

/-- Python f-string interpolation of a possibly-`None` value:
`f"{None}"` is the string `"None"`. -/
def pyFStr : Option Str → Str
  | none => str "None"
  | some t => t

/-- The form-feed page-break separator `"\f"`. -/
def ffStr : Str := ['\x0c']

/-- `max_size = target.max_document_size or self.max_document_size`
(crawler.py line 97): Python `or` treats both `None` and `0` as falsy. -/
def effMaxSize (t : CrawlTarget) (dm : Nat) : Nat :=
  match t.max_document_size with
  | some n => if n ≠ 0 then n else dm
  | none => dm

/-- `Crawler.__init__` (crawler.py lines 26-28): the instance-wide maximum
document size is the environment default, overridden by the constructor
target's `max_document_size` only when that is truthy. -/
def crawlerMax (envDefault : Nat) (target : Option CrawlTarget) : Nat :=
  match target with
  | some t =>
    match t.max_document_size with
    | some n => if n ≠ 0 then n else envDefault
    | none => envDefault
  | none => envDefault

/-- The strategy dispatch of `_split_document` (crawler.py lines 112-147):
page-wise accumulation for PDF, paragraph-wise for HTML, fixed-width slicing
otherwise. -/
def splitChunks (max_size : Nat) (content source_type : Str) : List Str :=
  if source_type = str "PDF" then pdfLoop max_size (pySplit ffStr content) []
  else if source_type = str "HTML" then htmlLoop max_size (pySplit nl2 content) []
  else chunksOf max_size content

/-- `_split_document` (crawler.py lines 95-164).  Returns `Except`: the error
case is the pydantic `ValidationError` raised when a single-chunk `Document`
is built with a `None` title (HTML pages whose `<title>` tag has no extractable
string); it is caught by `_process_document`'s outer handler.  In the
multi-chunk path the title goes through an f-string first, so a `None` title
becomes the literal string `"None"` and no error is raised. -/
def split_document (dm : Nat) (content : Str) (source_type : Str) (url : Str)
    (title : Option Str) (target : CrawlTarget) : Except Str (List Doc) :=
  let max_size := effMaxSize target dm
  if content.length ≤ max_size then
    match title with
    | none => Except.error (str "ValidationError")
    | some t =>
      Except.ok [⟨sha256Hex url, url, t, content, source_type, str "en"⟩]
  else
    let chunks := splitChunks max_size content source_type
    Except.ok (chunks.enum.map (fun ic =>
      ⟨sha256Hex (url ++ str "_" ++ natStr ic.1), url,
        pyFStr title ++ str " (Part " ++ natStr (ic.1 + 1) ++ str "/" ++
          natStr chunks.length ++ str ")",
        ic.2, source_type, str "en"⟩))

theorem enumFrom_map_snd {α : Type} : ∀ (n : Nat) (l : List α),
    (List.enumFrom n l).map Prod.snd = l := by
  intro n l
  induction l generalizing n with
  | nil => rfl
  | cons a as ih => simp [List.enumFrom, ih]

theorem mem_enumFrom_snd {α : Type} : ∀ (n : Nat) (l : List α) (p : Nat × α),
    p ∈ List.enumFrom n l → p.2 ∈ l := by
  intro n l
  induction l generalizing n with
  | nil => intro p hp; simp [List.enumFrom] at hp
  | cons a as ih =>
    intro p hp
    simp only [List.enumFrom, List.mem_cons] at hp
    rcases hp with rfl | hp
    · simp
    · exact List.mem_cons_of_mem a (ih (n + 1) p hp)

-- ### Fetch/extraction interfaces and `_process_document` (crawler.py 166-219)

/-- Observable result of fetching and parsing one URL.  BeautifulSoup and
PyMuPDF are external libraries, so a response is modelled by what they would
extract from the raw bytes:
* `titleTag`: `soup.title` — `none` when the tag is absent, `some none` when
  the tag is present but its `.string` is `None` (markup inside `<title>`),
  `some (some s)` otherwise;
* `text`: `soup.get_text(separator='\n', strip=True)`;
* `links`: the `href` attributes of `<a href=...>` elements in document order;
* `pdfExtract`: the per-page texts and metadata title from `fitz`, or the
  exception it raised. -/
structure Response where
  contentTypeHeader : Str
  titleTag : Option (Option Str)
  text : Str
  links : List Str
  pdfExtract : Except Str (List Str × Option Str)

/-- The network: `self.session.get` plus `raise_for_status`, with timeouts,
connection errors and non-2xx statuses collapsed into the error case. -/
abbrev Web := Str → Except Str Response

/-- The Dedup Gate: `db.query(DocumentModel).filter(doc_id == ...).first()`
viewed as "does a record with this identifier exist", with a database error
as the error case. -/
abbrev Gate := Str → Except Str Bool

/-- Python `str.strip()` with the default whitespace set. -/
def strTrim (s : Str) : Str :=
  ((s.dropWhile fun c => c.isWhitespace).reverse.dropWhile fun c => c.isWhitespace).reverse

/-- `url.split('/')[-1]`. -/
def lastSeg (url : Str) : Str := (pySplit (str "/") url).getLastD url

/-- crawler.py line 195. -/
def pdfEmptyPlaceholder (url : Str) : Str :=
  str "PDF from " ++ url ++
    str " appears to contain no extractable text (may be scanned or image-based)"

/-- crawler.py line 200. -/
def pdfFailPlaceholder (url e : Str) : Str :=
  str "Failed to extract content from PDF at " ++ url ++ str ": " ++ e

/-- crawler.py line 206. -/
def otherPlaceholder (url ct : Str) : Str :=
  str "Content from " ++ url ++ str " - format " ++ ct

/-- `_process_document` (crawler.py 166-219): extraction per content type,
then `_split_document`; the outer `try` turns any escaping failure (in
particular the `None`-title `ValidationError`) into an empty result. -/
def process_document (dm : Nat) (url : Str) (resp : Response)
    (content_type : Str) (t : CrawlTarget) : List Doc :=
  let r : Except Str (List Doc) :=
    if content_type = str "text/html" then
      let title : Option Str :=
        match resp.titleTag with
        | none => some url
        | some s => s
      split_document dm resp.text (str "HTML") url title t
    else if content_type = str "application/pdf" then
      let fallbackTitle := lastSeg url
      match resp.pdfExtract with
      | Except.ok pm =>
        let content := joinAll pm.1
        let title :=
          match pm.2 with
          | some mt => if strTrim mt ≠ [] then mt else fallbackTitle
          | none => fallbackTitle
        let content :=
          if strTrim content = [] then pdfEmptyPlaceholder url else content
        split_document dm content (str "PDF") url (some title) t
      | Except.error e =>
        split_document dm (pdfFailPlaceholder url e) (str "PDF") url
          (some fallbackTitle) t
    else
      let title := lastSeg url
      let source_type := ((pySplit (str "/") content_type).getLastD content_type).map Char.toUpper
      split_document dm (otherPlaceholder url content_type) source_type url
        (some title) t
  match r with
  | Except.ok docs => docs
  | Except.error _ => []

-- ### Link resolution and the traversal (`crawl` / `_crawl_url`, crawler.py 30-93)

/-- `f"{urlparse(url).scheme}://{urlparse(url).netloc}"` (crawler.py line 82),
modelled for URLs of the form `scheme://host/...` — the only shape reachable
from an `http(s)` crawl root.  A URL without `"://"` maps to `"://"` as
`urlparse` gives empty scheme and netloc for plain paths. -/
def urlSchemeHost (url : Str) : Str :=
  match pySplit (str "://") url with
  | s :: r :: _ => s ++ str "://" ++ (pySplit (str "/") r).headD []
  | _ => str "://"

/-- Link resolution, crawler.py lines 79-88:
`href.startswith('/')` → scheme+host; not `http://`/`https://` → appended to
the current URL (with a `/` joint unless the URL ends in one); otherwise kept. -/
def resolveHref (url href : Str) : Str :=
  if strStarts (str "/") href then urlSchemeHost url ++ href
  else if ¬ (strStarts (str "http://") href ∨ strStarts (str "https://") href) then
    if strEnds (str "/") url then url ++ href else url ++ str "/" ++ href
  else href

/-- Mutable crawl state: the instance-level `self.visited_urls`, the per-run
`documents` accumulator, and (as instrumentation for the theorems) the
chronological list of URLs for which a fetch was attempted. -/
structure St where
  visited : List Str
  docs : List Doc
  fetched : List Str
deriving DecidableEq

/-- Defunctionalised work items of the recursion in `_crawl_url`:
a page visit, or the remainder of one page's link loop. -/
inductive Job where
  | page (url : Str) (depth : Nat)
  | links (base : Str) (hrefs : List Str) (depth : Nat)

/-- The Dedup Gate consultation of `_crawl_url` (crawler.py lines 51-61):
`ok true` means "skip this URL" (an existing record was found and
`update_existing` is off), `ok false` means "fetch it", `error` is a database
exception — raised outside the frame's `try`. -/
def gateCheck (db : Option Gate) (t : CrawlTarget) (doc_id : Str) : Except Str Bool :=
  match db with
  | none => Except.ok false
  | some g =>
    match g doc_id with
    | Except.error e => Except.error e
    | Except.ok ex => Except.ok (ex && !t.update_existing)

/-- `_crawl_url` (crawler.py 43-93), fuelled for structural recursion: any
fuel at least the actual recursion depth of the Python call tree reproduces
it exactly (every theorem below holds for all fuels).  The second component
is a pending Python exception escaping the modelled frame: only the Dedup
Gate lookup (lines 53-61) sits outside the frame's `try`, so only its failure
propagates; it is then caught by the caller's handler (line 92), aborting the
caller's remaining link loop. -/
def run (web : Web) (db : Option Gate) (dm : Nat) (t : CrawlTarget) :
    Nat → Job → St → St × Option Str
  | 0, _, st => (st, none)
  | fuel + 1, Job.page url depth, st =>
    if (depth : Int) > t.depth ∨ url ∈ st.visited then (st, none)
    else
      let st : St := { st with visited := url :: st.visited }
      match gateCheck db t (sha256Hex url) with
      | Except.error e => (st, some e)
      | Except.ok true => (st, none)
      | Except.ok false =>
        let st : St := { st with fetched := st.fetched ++ [url] }
        match web url with
        | Except.error _ => (st, none)
        | Except.ok resp =>
          let content_type := (pySplit (str ";") resp.contentTypeHeader).headD []
          let st : St :=
            if content_type ∈ t.mime_filters then
              { st with docs := st.docs ++ process_document dm url resp content_type t }
            else st
          if content_type = str "text/html" ∧ (depth : Int) < t.depth then
            match run web db dm t fuel (Job.links url resp.links depth) st with
            | (st, _) => (st, none)
          else (st, none)
  | _ + 1, Job.links _ [] _, st => (st, none)
  | fuel + 1, Job.links base (href :: rest) depth, st =>
    match run web db dm t fuel (Job.page (resolveHref base href) (depth + 1)) st with
    | (st, some e) => (st, some e)
    | (st, none) => run web db dm t fuel (Job.links base rest depth) st

/-- `crawl` (crawler.py 30-41): fresh `documents` accumulator, persistent
`visited_urls` received from the instance; the outer `try` swallows an
escaping exception and the documents collected so far are returned. -/
def crawl (web : Web) (db : Option Gate) (dm : Nat) (t : CrawlTarget)
    (visited0 : List Str) (fuel : Nat) : St :=
  (run web db dm t fuel (Job.page t.url 0) ⟨visited0, [], []⟩).1

-- ### Traversal invariants

theorem run_visited_mono (web : Web) (db : Option Gate) (dm : Nat) (t : CrawlTarget) :
    ∀ fuel job st, ∀ u ∈ st.visited, u ∈ (run web db dm t fuel job st).1.visited := by
  intro fuel
  induction fuel with
  | zero => intro job st u hu; simpa [run] using hu
  | succ fuel ih =>
    intro job st u hu
    cases job with
    | page url depth =>
      simp only [run]
      by_cases hguard : (depth : Int) > t.depth ∨ url ∈ st.visited
      · rw [if_pos hguard]; exact hu
      · rw [if_neg hguard]
        cases hgr : gateCheck db t (sha256Hex url) with
        | error e =>
          simp only [hgr]
          exact List.mem_cons_of_mem url hu
        | ok b =>
          cases b with
          | true =>
            simp only [hgr]
            exact List.mem_cons_of_mem url hu
          | false =>
            simp only [hgr]
            cases hw : web url with
            | error e =>
              simp only [hw]
              exact List.mem_cons_of_mem url hu
            | ok resp =>
              simp only [hw]
              by_cases hmime :
                  (pySplit (str ";") resp.contentTypeHeader).headD [] ∈ t.mime_filters
              · rw [if_pos hmime]
                by_cases hhtml :
                    (pySplit (str ";") resp.contentTypeHeader).headD [] = str "text/html" ∧
                      (depth : Int) < t.depth
                · rw [if_pos hhtml]
                  rcases hrun : run web db dm t fuel (Job.links url resp.links depth)
                      ⟨url :: st.visited,
                        st.docs ++ process_document dm url resp
                          ((pySplit (str ";") resp.contentTypeHeader).headD []) t,
                        st.fetched ++ [url]⟩ with ⟨st2, e2⟩
                  simp only [hrun]
                  have h2 := ih (Job.links url resp.links depth)
                    ⟨url :: st.visited,
                      st.docs ++ process_document dm url resp
                        ((pySplit (str ";") resp.contentTypeHeader).headD []) t,
                      st.fetched ++ [url]⟩ u (List.mem_cons_of_mem url hu)
                  rw [hrun] at h2
                  exact h2
                · rw [if_neg hhtml]
                  exact List.mem_cons_of_mem url hu
              · rw [if_neg hmime]
                by_cases hhtml :
                    (pySplit (str ";") resp.contentTypeHeader).headD [] = str "text/html" ∧
                      (depth : Int) < t.depth
                · rw [if_pos hhtml]
                  rcases hrun : run web db dm t fuel (Job.links url resp.links depth)
                      ⟨url :: st.visited, st.docs, st.fetched ++ [url]⟩ with ⟨st2, e2⟩
                  simp only [hrun]
                  have h2 := ih (Job.links url resp.links depth)
                    ⟨url :: st.visited, st.docs, st.fetched ++ [url]⟩ u
                    (List.mem_cons_of_mem url hu)
                  rw [hrun] at h2
                  exact h2
                · rw [if_neg hhtml]
                  exact List.mem_cons_of_mem url hu
    | links base hrefs depth =>
      cases hrefs with
      | nil => simpa [run] using hu
      | cons href rest =>
        simp only [run]
        rcases hrun : run web db dm t fuel
            (Job.page (resolveHref base href) (depth + 1)) st with ⟨st2, e2⟩
        have h2 : u ∈ st2.visited := by
          have := ih (Job.page (resolveHref base href) (depth + 1)) st u hu
          rw [hrun] at this
          exact this
        cases e2 with
        | some e => simp only [hrun]; exact h2
        | none =>
          simp only [hrun]
          have := ih (Job.links base rest depth) st2 u h2
          exact this

theorem nodup_append_singleton {α : Type} {l : List α} {a : α}
    (h : l.Nodup) (ha : a ∉ l) : (l ++ [a]).Nodup := by
  simp [List.nodup_append, h, ha]

theorem run_fetched_inv (web : Web) (db : Option Gate) (dm : Nat) (t : CrawlTarget) :
    ∀ fuel job st,
      (∀ u ∈ st.fetched, u ∈ st.visited) → st.fetched.Nodup →
      (∀ u ∈ (run web db dm t fuel job st).1.fetched,
          u ∈ (run web db dm t fuel job st).1.visited) ∧
      (run web db dm t fuel job st).1.fetched.Nodup := by
  intro fuel
  induction fuel with
  | zero => intro job st hsub hnd; simpa [run] using ⟨hsub, hnd⟩
  | succ fuel ih =>
    intro job st hsub hnd
    cases job with
    | page url depth =>
      simp only [run]
      by_cases hguard : (depth : Int) > t.depth ∨ url ∈ st.visited
      · rw [if_pos hguard]; exact ⟨hsub, hnd⟩
      · rw [if_neg hguard]
        have hnv : url ∉ st.visited := fun h => hguard (Or.inr h)
        have hnf : url ∉ st.fetched := fun h => hnv (hsub url h)
        have hsub2 : ∀ u ∈ st.fetched ++ [url], u ∈ url :: st.visited := by
          intro u hu
          rcases List.mem_append.1 hu with h | h
          · exact List.mem_cons_of_mem url (hsub u h)
          · rcases List.mem_singleton.1 h with rfl
            exact List.mem_cons_self u st.visited
        have hnd2 : (st.fetched ++ [url]).Nodup := nodup_append_singleton hnd hnf
        cases hgr : gateCheck db t (sha256Hex url) with
        | error e =>
          simp only [hgr]
          exact ⟨fun u hu => List.mem_cons_of_mem url (hsub u hu), hnd⟩
        | ok b =>
          cases b with
          | true =>
            simp only [hgr]
            exact ⟨fun u hu => List.mem_cons_of_mem url (hsub u hu), hnd⟩
          | false =>
            simp only [hgr]
            cases hw : web url with
            | error e =>
              simp only [hw]
              exact ⟨hsub2, hnd2⟩
            | ok resp =>
              simp only [hw]
              by_cases hmime :
                  (pySplit (str ";") resp.contentTypeHeader).headD [] ∈ t.mime_filters
              · rw [if_pos hmime]
                by_cases hhtml :
                    (pySplit (str ";") resp.contentTypeHeader).headD [] = str "text/html" ∧
                      (depth : Int) < t.depth
                · rw [if_pos hhtml]
                  rcases hrun : run web db dm t fuel (Job.links url resp.links depth)
                      ⟨url :: st.visited,
                        st.docs ++ process_document dm url resp
                          ((pySplit (str ";") resp.contentTypeHeader).headD []) t,
                        st.fetched ++ [url]⟩ with ⟨st2, e2⟩
                  simp only [hrun]
                  have h2 := ih (Job.links url resp.links depth)
                    ⟨url :: st.visited,
                      st.docs ++ process_document dm url resp
                        ((pySplit (str ";") resp.contentTypeHeader).headD []) t,
                      st.fetched ++ [url]⟩ hsub2 hnd2
                  rw [hrun] at h2
                  exact h2
                · rw [if_neg hhtml]
                  exact ⟨hsub2, hnd2⟩
              · rw [if_neg hmime]
                by_cases hhtml :
                    (pySplit (str ";") resp.contentTypeHeader).headD [] = str "text/html" ∧
                      (depth : Int) < t.depth
                · rw [if_pos hhtml]
                  rcases hrun : run web db dm t fuel (Job.links url resp.links depth)
                      ⟨url :: st.visited, st.docs, st.fetched ++ [url]⟩ with ⟨st2, e2⟩
                  simp only [hrun]
                  have h2 := ih (Job.links url resp.links depth)
                    ⟨url :: st.visited, st.docs, st.fetched ++ [url]⟩ hsub2 hnd2
                  rw [hrun] at h2
                  exact h2
                · rw [if_neg hhtml]
                  exact ⟨hsub2, hnd2⟩
    | links base hrefs depth =>
      cases hrefs with
      | nil => simpa [run] using ⟨hsub, hnd⟩
      | cons href rest =>
        simp only [run]
        rcases hrun : run web db dm t fuel
            (Job.page (resolveHref base href) (depth + 1)) st with ⟨st2, e2⟩
        have h2 := ih (Job.page (resolveHref base href) (depth + 1)) st hsub hnd
        rw [hrun] at h2
        cases e2 with
        | some e => simp only [hrun]; exact h2
        | none =>
          simp only [hrun]
          exact ih (Job.links base rest depth) st2 h2.1 h2.2

theorem run_no_error (web : Web) (db : Option Gate) (dm : Nat) (t : CrawlTarget)
    (hdb : ∀ g, db = some g → ∀ d, ∃ b, g d = Except.ok b) :
    ∀ fuel job st, (run web db dm t fuel job st).2 = none := by
  have hgc : ∀ d, ∃ b, gateCheck db t d = Except.ok b := by
    intro d
    cases db with
    | none => exact ⟨false, rfl⟩
    | some g =>
      obtain ⟨b, hb⟩ := hdb g rfl d
      exact ⟨b && !t.update_existing, by simp [gateCheck, hb]⟩
  intro fuel
  induction fuel with
  | zero => intro job st; simp [run]
  | succ fuel ih =>
    intro job st
    cases job with
    | page url depth =>
      simp only [run]
      by_cases hguard : (depth : Int) > t.depth ∨ url ∈ st.visited
      · rw [if_pos hguard]
      · rw [if_neg hguard]
        obtain ⟨b, hb⟩ := hgc (sha256Hex url)
        simp only [hb]
        cases b with
        | true => rfl
        | false =>
          cases hw : web url with
          | error e => simp only [hw]
          | ok resp =>
            simp only [hw]
            by_cases hhtml :
                (pySplit (str ";") resp.contentTypeHeader).headD [] = str "text/html" ∧
                  (depth : Int) < t.depth
            · rw [if_pos hhtml]
            · rw [if_neg hhtml]
    | links base hrefs depth =>
      cases hrefs with
      | nil => simp [run]
      | cons href rest =>
        simp only [run]
        rcases hrun : run web db dm t fuel
            (Job.page (resolveHref base href) (depth + 1)) st with ⟨st2, e2⟩
        have h2 := ih (Job.page (resolveHref base href) (depth + 1)) st
        rw [hrun] at h2
        cases e2 with
        | some e => exact absurd h2 (by simp)
        | none =>
          simp only [hrun]
          exact ih (Job.links base rest depth) st2

theorem run_all_skip (web : Web) (dm : Nat) (t : CrawlTarget) (g : Gate)
    (hupd : t.update_existing = false)
    (hall : ∀ u : Str, g (sha256Hex u) = Except.ok true) :
    ∀ fuel job st,
      (run web (some g) dm t fuel job st).1.fetched = st.fetched ∧
      (run web (some g) dm t fuel job st).1.docs = st.docs ∧
      (run web (some g) dm t fuel job st).2 = none := by
  intro fuel
  induction fuel with
  | zero => intro job st; simp [run]
  | succ fuel ih =>
    intro job st
    cases job with
    | page url depth =>
      simp only [run]
      by_cases hguard : (depth : Int) > t.depth ∨ url ∈ st.visited
      · rw [if_pos hguard]; exact ⟨rfl, rfl, rfl⟩
      · rw [if_neg hguard]
        have hgr : gateCheck (some g) t (sha256Hex url) = Except.ok true := by
          simp [gateCheck, hall url, hupd]
        simp [hgr]
    | links base hrefs depth =>
      cases hrefs with
      | nil => simp [run]
      | cons href rest =>
        simp only [run]
        rcases hrun : run web (some g) dm t fuel
            (Job.page (resolveHref base href) (depth + 1)) st with ⟨st2, e2⟩
        have h2 := ih (Job.page (resolveHref base href) (depth + 1)) st
        rw [hrun] at h2
        cases e2 with
        | some e => exact absurd h2.2.2 (by simp)
        | none =>
          simp only [hrun]
          have h3 := ih (Job.links base rest depth) st2
          exact ⟨h2.1 ▸ h3.1, h2.2.1 ▸ h3.2.1, h3.2.2⟩

-- ### Split-level lemmas and claims C1, C9, C10

theorem split_document_gt (dm : Nat) (content source_type url : Str) (title : Option Str)
    (t : CrawlTarget) (hgt : effMaxSize t dm < content.length) :
    split_document dm content source_type url title t =
      Except.ok ((splitChunks (effMaxSize t dm) content source_type).enum.map
        (fun ic => ⟨sha256Hex (url ++ str "_" ++ natStr ic.1), url,
          pyFStr title ++ str " (Part " ++ natStr (ic.1 + 1) ++ str "/" ++
            natStr (splitChunks (effMaxSize t dm) content source_type).length ++ str ")",
          ic.2, source_type, str "en"⟩)) := by
  simp only [split_document]
  rw [if_neg (not_le.2 hgt)]

theorem splitChunks_mem (m : Nat) (content source_type : Str) :
    ∀ c ∈ splitChunks m content source_type,
      c.length ≤ m ∨
      (source_type = str "PDF" ∧ c ∈ pySplit ffStr content) ∨
      (source_type = str "HTML" ∧ c ∈ pySplit nl2 content) := by
  intro c hc
  rw [splitChunks] at hc
  by_cases hp : source_type = str "PDF"
  · rw [if_pos hp] at hc
    rcases pdfLoop_sizes m (pySplit ffStr content) (pySplit ffStr content) []
        (fun _ hu => hu) (Or.inl rfl) c hc with h | h
    · exact Or.inl h
    · exact Or.inr (Or.inl ⟨hp, h⟩)
  · rw [if_neg hp] at hc
    by_cases hh : source_type = str "HTML"
    · rw [if_pos hh] at hc
      rcases htmlLoop_sizes m (pySplit nl2 content) (pySplit nl2 content) []
          (fun _ hu => hu) (Or.inl rfl) c hc with h | h
      · exact Or.inl h
      · exact Or.inr (Or.inr ⟨hh, h⟩)
    · rw [if_neg hh] at hc
      exact Or.inl (chunksOf_sizes m content c hc)

/-- C1: for `_split_document` with a positive effective maximum size, every
emitted chunk's content is within the bound, except that an oversized chunk
can only be a single indivisible unit — one PDF page (an element of the
form-feed split) or one HTML paragraph (an element of the blank-line split) —
whose own length already exceeds the bound; chunks of the fixed-width
fallback strategy never exceed the bound. -/
theorem claim_C1_split_size_bound (dm : Nat) (content source_type url : Str)
    (title : Option Str) (t : CrawlTarget) (docs : List Doc)
    (_hm : 0 < effMaxSize t dm)
    (h : split_document dm content source_type url title t = Except.ok docs) :
    ∀ d ∈ docs,
      d.content.length ≤ effMaxSize t dm ∨
      (source_type = str "PDF" ∧ effMaxSize t dm < d.content.length ∧
        d.content ∈ pySplit ffStr content) ∨
      (source_type = str "HTML" ∧ effMaxSize t dm < d.content.length ∧
        d.content ∈ pySplit nl2 content) := by
  intro d hd
  by_cases hle : content.length ≤ effMaxSize t dm
  · simp only [split_document] at h
    rw [if_pos hle] at h
    cases title with
    | none => cases h
    | some t0 =>
      injection h with h2
      subst h2
      rcases List.mem_singleton.1 hd with rfl
      exact Or.inl hle
  · rw [split_document_gt dm content source_type url title t (not_le.1 hle)] at h
    injection h with h2
    subst h2
    obtain ⟨ic, hic, hmk⟩ := List.mem_map.1 hd
    have hcont : d.content ∈ splitChunks (effMaxSize t dm) content source_type := by
      have : d.content = ic.2 := by rw [← hmk]
      rw [this]
      exact mem_enumFrom_snd 0 _ ic hic
    by_cases hdle : d.content.length ≤ effMaxSize t dm
    · exact Or.inl hdle
    · rcases splitChunks_mem (effMaxSize t dm) content source_type d.content hcont with
        hx | ⟨hp, hin⟩ | ⟨hh, hin⟩
      · exact Or.inl hx
      · exact Or.inr (Or.inl ⟨hp, Nat.lt_of_not_le hdle, hin⟩)
      · exact Or.inr (Or.inr ⟨hh, Nat.lt_of_not_le hdle, hin⟩)

/-- C9: for oversized content, concatenating chunk contents in chunk-index
order reproduces the extracted content exactly under the fixed-width fallback
strategy; under the PDF strategy it reproduces the content with the form-feed
separators removed (re-intercalating the split with the separator is the
content); under the HTML strategy the blank-line re-join of the chunks gives
back the content up to inserted blank-line separators.  Chunk order equals
source order throughout: the equalities are stated on the chunk sequence as
returned. -/
theorem claim_C9_reassembly (dm : Nat) (content source_type url : Str) (title : Option Str)
    (t : CrawlTarget) (docs : List Doc)
    (hm : 0 < effMaxSize t dm)
    (hlong : effMaxSize t dm < content.length)
    (h : split_document dm content source_type url title t = Except.ok docs) :
    (source_type ≠ str "PDF" → source_type ≠ str "HTML" →
      joinAll (docs.map fun d => d.content) = content) ∧
    (source_type = str "PDF" →
      joinAll (docs.map fun d => d.content) = joinAll (pySplit ffStr content) ∧
      pyJoin ffStr (pySplit ffStr content) = content) ∧
    (source_type = str "HTML" →
      InsertSeps nl2 (pyJoin nl2 (docs.map fun d => d.content)) content) := by
  rw [split_document_gt dm content source_type url title t hlong] at h
  injection h with h2
  subst h2
  have hmap : (((splitChunks (effMaxSize t dm) content source_type).enum.map
      (fun ic => (⟨sha256Hex (url ++ str "_" ++ natStr ic.1), url,
        pyFStr title ++ str " (Part " ++ natStr (ic.1 + 1) ++ str "/" ++
          natStr (splitChunks (effMaxSize t dm) content source_type).length ++ str ")",
        ic.2, source_type, str "en"⟩ : Doc))).map fun d => d.content) =
      splitChunks (effMaxSize t dm) content source_type := by
    rw [List.map_map]
    exact enumFrom_map_snd 0 _
  rw [hmap]
  refine ⟨?_, ?_, ?_⟩
  · intro hp hh
    rw [splitChunks, if_neg hp, if_neg hh]
    exact chunksOf_join (effMaxSize t dm) hm content
  · intro hp
    constructor
    · rw [splitChunks, if_pos hp, pdfLoop_join]
      rfl
    · exact pyJoin_pySplit ffStr (by simp [ffStr]) content
  · intro hh
    rw [splitChunks, if_neg (by simp [hh, str]), if_pos hh]
    cases hu : pySplit nl2 content with
    | nil => exact absurd hu (pySplit_ne_nil nl2 content)
    | cons p rest =>
      have hstep : htmlLoop (effMaxSize t dm) (p :: rest) [] =
          htmlLoop (effMaxSize t dm) rest p := by
        simp [htmlLoop]
      rw [hstep]
      have hre := htmlLoop_reassemble (effMaxSize t dm) rest p
      have hid : pyJoin nl2 (p :: rest) = content := by
        rw [← hu]
        exact pyJoin_pySplit nl2 (by simp [nl2]) content
      rw [hid] at hre
      exact hre

/-- C10: a `max_document_size` override of `0` (or `None`) is ignored by the
truthiness test of `target.max_document_size or self.max_document_size`, both
in `_split_document` and in `Crawler.__init__`; splitting then uses the
process-wide default, and content no longer than that default comes back as a
single chunk. -/
theorem claim_C10_zero_override (dm : Nat) (content source_type url title : Str)
    (t : CrawlTarget)
    (hz : t.max_document_size = some 0 ∨ t.max_document_size = none) :
    effMaxSize t dm = dm ∧ crawlerMax dm (some t) = dm ∧
    (content.length ≤ dm →
      split_document dm content source_type url (some title) t =
        Except.ok [⟨sha256Hex url, url, title, content, source_type, str "en"⟩]) := by
  have he : effMaxSize t dm = dm := by
    rcases hz with h | h <;> simp [effMaxSize, h]
  refine ⟨he, ?_, ?_⟩
  · rcases hz with h | h <;> simp [crawlerMax, h]
  · intro hle
    simp only [split_document, he]
    rw [if_pos hle]

-- Concrete fixtures for the split-level witnesses

/-- A target whose override sets the effective maximum chunk size to 4. -/
def tgtOv : CrawlTarget := ⟨str "u", [], 2, none, true, some 4⟩

/-- A target with a zero (falsy) `max_document_size` override. -/
def tgtZero : CrawlTarget := ⟨str "u", [], 2, none, true, some 0⟩

/-- The two chunks `_split_document` makes of `"abcde"` at maximum size 4. -/
def c1docs : List Doc :=
  [⟨str "sha256:u_0", str "u", str "X (Part 1/2)", str "abcd", str "OTHER", str "en"⟩,
   ⟨str "sha256:u_1", str "u", str "X (Part 2/2)", str "e", str "OTHER", str "en"⟩]

/-- The two chunks `_split_document` makes of `"ab\fcd\fef"` (PDF) at size 4. -/
def c9docs : List Doc :=
  [⟨str "sha256:u_0", str "u", str "X (Part 1/2)", str "abcd", str "PDF", str "en"⟩,
   ⟨str "sha256:u_1", str "u", str "X (Part 2/2)", str "ef", str "PDF", str "en"⟩]

theorem claim_C1_witness :
    0 < effMaxSize tgtOv 4000 ∧
    ∀ d ∈ c1docs,
      d.content.length ≤ effMaxSize tgtOv 4000 ∨
      (str "OTHER" = str "PDF" ∧ effMaxSize tgtOv 4000 < d.content.length ∧
        d.content ∈ pySplit ffStr (str "abcde")) ∨
      (str "OTHER" = str "HTML" ∧ effMaxSize tgtOv 4000 < d.content.length ∧
        d.content ∈ pySplit nl2 (str "abcde")) :=
  ⟨by decide, claim_C1_split_size_bound 4000 (str "abcde") (str "OTHER") (str "u")
    (some (str "X")) tgtOv c1docs (by decide) (by rfl)⟩

theorem claim_C9_witness :
    0 < effMaxSize tgtOv 4000 ∧ effMaxSize tgtOv 4000 < (str "ab\x0ccd\x0cef").length ∧
    ((str "PDF" ≠ str "PDF" → str "PDF" ≠ str "HTML" →
      joinAll (c9docs.map fun d => d.content) = str "ab\x0ccd\x0cef") ∧
    (str "PDF" = str "PDF" →
      joinAll (c9docs.map fun d => d.content) = joinAll (pySplit ffStr (str "ab\x0ccd\x0cef")) ∧
      pyJoin ffStr (pySplit ffStr (str "ab\x0ccd\x0cef")) = str "ab\x0ccd\x0cef") ∧
    (str "PDF" = str "HTML" →
      InsertSeps nl2 (pyJoin nl2 (c9docs.map fun d => d.content)) (str "ab\x0ccd\x0cef"))) :=
  ⟨by decide, by decide,
    claim_C9_reassembly 4000 (str "ab\x0ccd\x0cef") (str "PDF") (str "u")
      (some (str "X")) tgtOv c9docs (by decide) (by decide) (by rfl)⟩

theorem claim_C10_witness :
    (tgtZero.max_document_size = some 0 ∨ tgtZero.max_document_size = none) ∧
    (effMaxSize tgtZero 4000 = 4000 ∧ crawlerMax 4000 (some tgtZero) = 4000 ∧
      ((str "hi").length ≤ 4000 →
        split_document 4000 (str "hi") (str "HTML") (str "u") (some (str "T")) tgtZero =
          Except.ok [⟨sha256Hex (str "u"), str "u", str "T", str "hi", str "HTML", str "en"⟩])) :=
  ⟨Or.inl rfl,
    claim_C10_zero_override 4000 (str "hi") (str "HTML") (str "u") (str "T") tgtZero (Or.inl rfl)⟩

-- ### Traversal-level fixtures and claims

/-- An HTML response with a well-formed title. -/
def htmlResp (title text : String) (links : List Str) : Response :=
  ⟨str "text/html", some (some (str title)), str text, links, Except.error (str "not a pdf")⟩

/-- Scenario C web: A links to B and C, C links back to A. -/
def webC8 : Web := fun u =>
  if u = str "http://a" then Except.ok (htmlResp "A" "a" [str "http://b", str "http://c"])
  else if u = str "http://b" then Except.ok (htmlResp "B" "b" [])
  else if u = str "http://c" then Except.ok (htmlResp "C" "c" [str "http://a"])
  else Except.error (str "404")

def tgtC8 : CrawlTarget := ⟨str "http://a", [str "text/html"], 2, none, true, none⟩

/-- C8: within one run (a fresh instance state), no URL is ever fetched twice —
the fetch log of any crawl is duplicate-free for every web, gate, target and
fuel — and on the cyclic scenario web (A → B, C; C → A) a depth-2 crawl
fetches exactly A, B, C once each, in document order, with no second visit to
A via C. -/
theorem claim_C8_no_revisit :
    (∀ (web : Web) (db : Option Gate) (dm : Nat) (t : CrawlTarget)
        (v0 : List Str) (fuel : Nat),
      (crawl web db dm t v0 fuel).fetched.Nodup) ∧
    (crawl webC8 none 4000 tgtC8 [] 20).fetched =
      [str "http://a", str "http://b", str "http://c"] := by
  constructor
  · intro web db dm t v0 fuel
    exact (run_fetched_inv web db dm t fuel (Job.page t.url 0) ⟨v0, [], []⟩
      (by intro u hu; simp at hu) (by simp)).2
  · decide

/-- A target with negative maximum depth, accepted by the pydantic model
(`depth: int` carries no lower bound). -/
def tgtNeg : CrawlTarget := ⟨str "http://a", [str "text/html"], -1, none, true, none⟩

/-- C6 (code behaviour at the failing input): a CrawlTarget with depth -1 is
not rejected — construction succeeds and, for every web, gate and fuel,
`crawl` silently returns an empty result without attempting a single fetch:
the depth guard fires on the first call.  This contradicts the claimed eager
rejection. -/
theorem claim_C6_negative_depth_silent :
    ∀ (web : Web) (db : Option Gate) (dm : Nat) (v0 : List Str) (fuel : Nat),
      (crawl web db dm tgtNeg v0 fuel).docs = [] ∧
      (crawl web db dm tgtNeg v0 fuel).fetched = [] ∧
      (crawl web db dm tgtNeg v0 fuel).visited = v0 := by
  intro web db dm v0 fuel
  cases fuel with
  | zero => exact ⟨rfl, rfl, rfl⟩
  | succ f =>
    simp only [crawl, run]
    rw [if_pos (Or.inl (by decide))]
    exact ⟨rfl, rfl, rfl⟩

/-- Every page visit at an in-budget depth puts its URL into the visited set
of the result. -/
theorem run_page_visits (web : Web) (db : Option Gate) (dm : Nat) (t : CrawlTarget)
    (fuel : Nat) (url : Str) (depth : Nat) (st : St)
    (hd : (depth : Int) ≤ t.depth) :
    url ∈ (run web db dm t (fuel + 1) (Job.page url depth) st).1.visited := by
  simp only [run]
  by_cases hguard : (depth : Int) > t.depth ∨ url ∈ st.visited
  · rw [if_pos hguard]
    rcases hguard with h | h
    · exact absurd h (by omega)
    · exact h
  · rw [if_neg hguard]
    cases hgr : gateCheck db t (sha256Hex url) with
    | error e => simp only [hgr]; exact List.mem_cons_self url st.visited
    | ok b =>
      cases b with
      | true => simp only [hgr]; exact List.mem_cons_self url st.visited
      | false =>
        simp only [hgr]
        cases hw : web url with
        | error e => simp only [hw]; exact List.mem_cons_self url st.visited
        | ok resp =>
          simp only [hw]
          by_cases hmime :
              (pySplit (str ";") resp.contentTypeHeader).headD [] ∈ t.mime_filters
          · rw [if_pos hmime]
            by_cases hhtml :
                (pySplit (str ";") resp.contentTypeHeader).headD [] = str "text/html" ∧
                  (depth : Int) < t.depth
            · rw [if_pos hhtml]
              exact run_visited_mono web db dm t fuel (Job.links url resp.links depth)
                ⟨url :: st.visited,
                  st.docs ++ process_document dm url resp
                    ((pySplit (str ";") resp.contentTypeHeader).headD []) t,
                  st.fetched ++ [url]⟩ url (List.mem_cons_self url st.visited)
            · rw [if_neg hhtml]
              exact List.mem_cons_self url st.visited
          · rw [if_neg hmime]
            by_cases hhtml :
                (pySplit (str ";") resp.contentTypeHeader).headD [] = str "text/html" ∧
                  (depth : Int) < t.depth
            · rw [if_pos hhtml]
              exact run_visited_mono web db dm t fuel (Job.links url resp.links depth)
                ⟨url :: st.visited, st.docs, st.fetched ++ [url]⟩ url
                (List.mem_cons_self url st.visited)
            · rw [if_neg hhtml]
              exact List.mem_cons_self url st.visited

/-- A depth-0 target on a one-page web, used for the C4 counterexample. -/
def tgtC4 : CrawlTarget := ⟨str "http://a", [str "text/html"], 0, none, true, none⟩

def webC4 : Web := fun u =>
  if u = str "http://a" then Except.ok (htmlResp "A" "hello" [])
  else Except.error (str "404")

/-- C4 counterexample: the visited set survives between two successive `crawl`
calls on the same Crawler instance — the first run emits a document for A, but
a second run starting from the first run's instance state fetches nothing and
returns no documents, contradicting "a URL visited in run one is processed
again in run two". -/
theorem claim_C4_counterexample :
    (crawl webC4 none 4000 tgtC4 [] 10).docs ≠ [] ∧
    (crawl webC4 none 4000 tgtC4 ((crawl webC4 none 4000 tgtC4 [] 10).visited) 10).docs = [] ∧
    (crawl webC4 none 4000 tgtC4 ((crawl webC4 none 4000 tgtC4 [] 10).visited) 10).fetched = [] := by
  decide

/-- C4 amended: the visited set belongs to the Crawler instance, not to one
`crawl` invocation: it is never cleared, a crawl whose start URL is already in
the instance's visited set returns immediately with nothing fetched, and any
in-budget run leaves its start URL in the set for all later runs on the same
instance.  Per-run freshness holds only when each run constructs a new
Crawler (as the HTTP router does). -/
theorem claim_C4_amended :
    (∀ (web : Web) (db : Option Gate) (dm : Nat) (t : CrawlTarget)
        (v0 : List Str) (fuel : Nat),
      t.url ∈ v0 → crawl web db dm t v0 fuel = ⟨v0, [], []⟩) ∧
    (∀ (web : Web) (db : Option Gate) (dm : Nat) (t : CrawlTarget)
        (v0 : List Str) (fuel : Nat),
      0 ≤ t.depth → t.url ∈ (crawl web db dm t v0 (fuel + 1)).visited) := by
  constructor
  · intro web db dm t v0 fuel hmem
    cases fuel with
    | zero => rfl
    | succ f =>
      simp only [crawl, run]
      rw [if_pos (Or.inr hmem)]
  · intro web db dm t v0 fuel hd
    exact run_page_visits web db dm t fuel t.url 0 ⟨v0, [], []⟩ (by omega)

theorem claim_C4_witness :
    str "http://a" ∈ [str "http://a"] ∧
    crawl webC4 none 4000 tgtC4 [str "http://a"] 10 = ⟨[str "http://a"], [], []⟩ :=
  ⟨by decide,
    claim_C4_amended.1 webC4 none 4000 tgtC4 [str "http://a"] 10 (by decide)⟩

/-- Re-crawl target: `update_existing = false`, chunk size override 4. -/
def tgtC2 : CrawlTarget := ⟨str "http://a", [str "text/html"], 0, none, false, some 4⟩

/-- One HTML page whose text splits into two chunks at size 4. -/
def webC2 : Web := fun u =>
  if u = str "http://a" then
    Except.ok ⟨str "text/html", some (some (str "T")), str "aaaa\n\nbbbb", [],
      Except.error (str "not a pdf")⟩
  else Except.error (str "404")

/-- The chunk identifiers the prior run of `webC2` produced. -/
def priorIds : List Str := [sha256Hex (str "http://a_0"), sha256Hex (str "http://a_1")]

/-- A Dedup Gate reporting exactly the prior run's identifiers as existing. -/
def gateC2 : Gate := fun d => Except.ok (decide (d ∈ priorIds))

/-- C2 counterexample: re-running `crawl` with `update_existing = false`
against a gate that reports all prior identifiers as existing still fetches
the URL and re-emits its two chunks (with exactly the prior identifiers,
confirming determinism): the pre-fetch lookup queries `hash(url)`, which is
not among the stored multi-chunk identifiers `hash(url + "_" + i)`, so the
skip never triggers and the run yields two chunks, not zero. -/
theorem claim_C2_counterexample :
    (crawl webC2 (some gateC2) 4000 tgtC2 [] 10).docs.map (fun d => d.doc_id) = priorIds ∧
    (crawl webC2 (some gateC2) 4000 tgtC2 [] 10).fetched = [str "http://a"] ∧
    (crawl webC2 (some gateC2) 4000 tgtC2 [] 10).docs.length = 2 := by
  decide

/-- C2 amended: the pre-fetch dedup lookup consults only `hash(url)`.  When
the gate reports every identifier of that form as existing and
`update_existing` is false, every URL is skipped before fetching and the run
yields zero chunks.  Single-chunk documents do carry identifier `hash(url)`,
so their prior output gates the re-crawl; multi-chunk documents are stored
under `hash(url + "_" + chunk-index)`, which the lookup never queries, and
are re-fetched and re-emitted. -/
theorem claim_C2_amended (web : Web) (dm : Nat) (t : CrawlTarget) (g : Gate)
    (v0 : List Str) (fuel : Nat)
    (hupd : t.update_existing = false)
    (hall : ∀ u : Str, g (sha256Hex u) = Except.ok true) :
    (crawl web (some g) dm t v0 fuel).docs = [] ∧
    (crawl web (some g) dm t v0 fuel).fetched = [] ∧
    (∀ (dmx : Nat) (content source_type url title : Str) (tx : CrawlTarget),
      content.length ≤ effMaxSize tx dmx →
      split_document dmx content source_type url (some title) tx =
        Except.ok [⟨sha256Hex url, url, title, content, source_type, str "en"⟩]) := by
  have h := run_all_skip web dm t g hupd hall fuel (Job.page t.url 0) ⟨v0, [], []⟩
  refine ⟨h.2.1, h.1, ?_⟩
  intro dmx content source_type url title tx hle
  simp only [split_document]
  rw [if_pos hle]

/-- A gate reporting every identifier as existing. -/
def gateAll : Gate := fun _ => Except.ok true

theorem claim_C2_witness :
    tgtC2.update_existing = false ∧
    ((crawl webC2 (some gateAll) 4000 tgtC2 [] 10).docs = [] ∧
     (crawl webC2 (some gateAll) 4000 tgtC2 [] 10).fetched = [] ∧
     (∀ (dmx : Nat) (content source_type url title : Str) (tx : CrawlTarget),
        content.length ≤ effMaxSize tx dmx →
        split_document dmx content source_type url (some title) tx =
          Except.ok [⟨sha256Hex url, url, title, content, source_type, str "en"⟩])) :=
  ⟨rfl, claim_C2_amended webC2 4000 tgtC2 gateAll [] 10 rfl (fun _ => rfl)⟩

/-- Parent page with two children, for the C5 counterexample. -/
def tgtC5 : CrawlTarget := ⟨str "http://p", [str "text/html"], 1, none, true, none⟩

def webC5 : Web := fun u =>
  if u = str "http://p" then Except.ok (htmlResp "P" "p" [str "http://b", str "http://c"])
  else if u = str "http://c" then Except.ok (htmlResp "C" "c" [])
  else Except.error (str "404")

/-- A gate whose lookup raises for B's identifier only. -/
def gateC5 : Gate := fun d =>
  if d = sha256Hex (str "http://b") then Except.error (str "db down")
  else Except.ok false

/-- C5 counterexample: a persistence-lookup failure at child B does not
terminate only B's branch — it propagates into the parent's handler and
aborts the parent's remaining links, so sibling C (discovered before the
failure) is never fetched or visited; the crawl still returns the documents
collected before the failure. -/
theorem claim_C5_counterexample :
    (crawl webC5 (some gateC5) 4000 tgtC5 [] 10).fetched = [str "http://p"] ∧
    str "http://c" ∉ (crawl webC5 (some gateC5) 4000 tgtC5 [] 10).visited ∧
    (crawl webC5 (some gateC5) 4000 tgtC5 [] 10).docs.length = 1 := by
  decide

/-- C5 amended: `crawl` always returns the accumulated document list, and
transport, parse and processing failures at one URL are caught inside that
URL's own frame: when the Dedup Gate never raises, no exception escapes any
frame, so every discovered sibling link is still processed.  Only a gate
lookup failure escapes a frame, and it aborts the remaining links of the
immediate parent (ancestors above the parent continue). -/
theorem claim_C5_amended (web : Web) (db : Option Gate) (dm : Nat) (t : CrawlTarget)
    (hdb : ∀ g, db = some g → ∀ d, ∃ b, g d = Except.ok b) :
    ∀ fuel job st, (run web db dm t fuel job st).2 = none :=
  run_no_error web db dm t hdb

/-- `webC5` with B's fetch failing at transport level instead. -/
def webC5b : Web := fun u =>
  if u = str "http://p" then Except.ok (htmlResp "P" "p" [str "http://b", str "http://c"])
  else if u = str "http://c" then Except.ok (htmlResp "C" "c" [])
  else Except.error (str "timeout")

theorem claim_C5_witness :
    (run webC5b none 4000 tgtC5 10 (Job.page (str "http://p") 0) ⟨[], [], []⟩).2 = none ∧
    (crawl webC5b none 4000 tgtC5 [] 10).fetched =
      [str "http://p", str "http://b", str "http://c"] :=
  ⟨claim_C5_amended webC5b none 4000 tgtC5 (fun g hg => nomatch hg) 10
      (Job.page (str "http://p") 0) ⟨[], [], []⟩,
    by decide⟩

-- ### Claim C3: link resolution

theorem strStarts_first (a : Char) (pre s : Str) (h : strStarts (a :: pre) s = true) :
    ∃ rest, s = a :: rest := by
  cases s with
  | nil => simp [strStarts] at h
  | cons b bs =>
    simp only [strStarts] at h
    by_cases hab : a = b
    · exact ⟨bs, by rw [hab]⟩
    · rw [if_neg hab] at h; cases h

/-- Modelled from the claim's wording (C3): an href counts as an absolute URL
when it carries a scheme before `"://"`. -/
def hasScheme (href : Str) : Bool :=
  match pySplit (str "://") href with
  | s :: _ :: _ => decide (s ≠ []) && !(s.contains '/')
  | _ => false

/-- Modelled from the claim's wording (C3): the current URL's directory —
everything up to and including the last slash. -/
def urlDirOf (url : Str) : Str :=
  pyJoin (str "/") (pySplit (str "/") url).dropLast ++ str "/"

/-- Modelled from the claim's wording (C3): absolute URLs (with scheme) kept
as-is; root-relative paths against the current URL's scheme+host; any other
relative path against the current URL's directory. -/
def claimedResolve (url href : Str) : Str :=
  if hasScheme href then href
  else if strStarts (str "/") href then urlSchemeHost url ++ href
  else urlDirOf url ++ href

/-- C3 counterexample: the code's resolution disagrees with the claim on two
points — an absolute URL with a non-http(s) scheme is treated as relative and
appended to the current URL, and a plain relative path is appended to the
whole current URL rather than resolved against its directory. -/
theorem claim_C3_counterexample :
    resolveHref (str "http://host/dir/page.html") (str "ftp://o/f") ≠
      claimedResolve (str "http://host/dir/page.html") (str "ftp://o/f") ∧
    resolveHref (str "http://host/dir/page.html") (str "c.html") ≠
      claimedResolve (str "http://host/dir/page.html") (str "c.html") := by
  decide

/-- The resolution rule the code actually implements (amended C3): absolute
`http://`/`https://` links are kept as-is; root-relative links resolve against
the current URL's scheme+host; every other href — including absolute URLs of
other schemes — is appended to the full current URL treated as a directory,
with a slash joint unless the URL already ends in one. -/
def amendedResolve (url href : Str) : Str :=
  if strStarts (str "http://") href ∨ strStarts (str "https://") href then href
  else if strStarts (str "/") href then urlSchemeHost url ++ href
  else if strEnds (str "/") url then url ++ href else url ++ str "/" ++ href

/-- C3 amended: for every current URL and collected href, the code's
resolution equals the amended rule (keep http(s) absolutes; root-relative
against scheme+host; everything else appended to the current URL treated as a
directory); recursion on the resolved links happens at depth+1 in document
order by the structure of the traversal. -/
theorem claim_C3_amended :
    ∀ url href, resolveHref url href = amendedResolve url href := by
  intro url href
  rw [resolveHref, amendedResolve]
  by_cases hs : strStarts (str "/") href = true
  · have hs' : strStarts ('/' :: []) href = true := hs
    obtain ⟨r1, hr1⟩ := strStarts_first '/' [] href hs'
    have hh : ¬(strStarts (str "http://") href = true ∨
        strStarts (str "https://") href = true) := by
      rintro (h | h)
      · obtain ⟨r2, hr2⟩ := strStarts_first 'h' (str "ttp://") href h
        rw [hr1] at hr2
        simp at hr2
      · obtain ⟨r2, hr2⟩ := strStarts_first 'h' (str "ttps://") href h
        rw [hr1] at hr2
        simp at hr2
    rw [if_pos hs, if_neg hh, if_pos hs]
  · rw [if_neg hs]
    by_cases hhtp : strStarts (str "http://") href = true ∨
        strStarts (str "https://") href = true
    · rw [if_neg (not_not_intro hhtp), if_pos hhtp]
    · rw [if_pos hhtp, if_neg hhtp, if_neg hs]

-- ### Claim C7: extraction totality

/-- A target whose MIME allow-list matches the fetched page. -/
def tgtDef : CrawlTarget :=
  ⟨str "http://a", [str "application/pdf", str "text/html"], 2, none, true, none⟩

/-- An HTML page whose `<title>` tag is present but yields no string
(`soup.title.string is None`, e.g. markup inside the tag). -/
def respBadTitle : Response :=
  ⟨str "text/html", some none, str "hello", [], Except.error (str "x")⟩

/-- C7 counterexample: a page matching the MIME filter can produce zero
document records — an HTML response whose title tag has no extractable string
makes the single-chunk `Document` construction fail pydantic validation
(`title=None` for a `str` field); `_process_document`'s outer handler catches
it and returns the empty list instead of a placeholder record. -/
theorem claim_C7_counterexample :
    str "text/html" ∈ tgtDef.mime_filters ∧
    process_document 4000 (str "http://a") respBadTitle (str "text/html") tgtDef = [] := by
  constructor
  · decide
  · decide

/-- C7 amended: `_process_document` never raises, and a PDF extraction
failure degrades to a diagnostic placeholder string as content: when the
placeholder fits the effective maximum size, the page yields exactly one
record whose content is the placeholder and whose title is the URL's last
path segment.  The one exception to "a page matching the MIME filter always
produces a record" is a record-construction failure (see the counterexample),
which yields zero records for that page. -/
theorem claim_C7_amended (dm : Nat) (url e : Str) (resp : Response) (t : CrawlTarget)
    (hpdf : resp.pdfExtract = Except.error e)
    (hfit : (pdfFailPlaceholder url e).length ≤ effMaxSize t dm) :
    process_document dm url resp (str "application/pdf") t =
      [⟨sha256Hex url, url, lastSeg url, pdfFailPlaceholder url e, str "PDF", str "en"⟩] := by
  simp only [process_document]
  rw [if_neg (by decide)]
  simp only [if_true, hpdf]
  simp only [split_document]
  rw [if_pos hfit]

/-- A PDF response whose extraction raises. -/
def respPdfFail : Response :=
  ⟨str "application/pdf", none, [], [], Except.error (str "boom")⟩

theorem claim_C7_witness :
    respPdfFail.pdfExtract = Except.error (str "boom") ∧
    (pdfFailPlaceholder (str "http://a") (str "boom")).length ≤ effMaxSize tgtDef 4000 ∧
    process_document 4000 (str "http://a") respPdfFail (str "application/pdf") tgtDef =
      [⟨sha256Hex (str "http://a"), str "http://a", lastSeg (str "http://a"),
        pdfFailPlaceholder (str "http://a") (str "boom"), str "PDF", str "en"⟩] :=
  ⟨rfl, by decide,
    claim_C7_amended 4000 (str "http://a") (str "boom") respPdfFail tgtDef rfl (by decide)⟩
